import Mathlib

/-!
Verification development for the MeoCord bot framework's event-dispatch core.

The definitions below are shallow embeddings of the TypeScript source:

* Pattern compiler: `createRegexFromPattern` in
  `src/unnamed/part_019` (lines 420-438), the revision the specification
  describes, which replaces each `{word}` placeholder by the named capture
  group `(?<word>[a-zA-Z0-9]+)` and anchors the whole regex with `^...$`.
  (An older revision in `src/src/decorator/controller.decorator.ts` used
  `\d+` for the group body; the claims and the spec cite the
  alphanumeric revision, which is the one embedded here.)
  Two stages of the source are modelled separately.  Stage 1 is the
  string rewriting: the escaping pass (which deliberately leaves `{`,
  `}` and `-` unescaped) followed by the global replacement of
  `\{(\w+)}` chunks by named groups, with the dead `^\w+$` guard; it is
  embedded as a scanner from the pattern to a token list of literal
  characters and groups.  Stage 2 is the `new RegExp` construction of
  the anchored source: it validates group names (a digit-leading name or
  a duplicate name is a SyntaxError), parses surviving brace chunks of
  quantifier shape (`{m}`, `{m,}`, `{m,n}` over literal characters) as
  braced quantifiers on the preceding atom — a SyntaxError when nothing
  precedes or another quantifier precedes ("nothing to repeat"), or when
  the bounds are out of order — and treats every other surviving brace
  as a literal character, per the Annex-B grammar for non-unicode
  patterns.  The matching semantics `regex.test` are given for the full
  compiled form, quantifiers included.
* Guard chain: the `descriptor.value` wrapper installed by `UseGuard` in
  `src/src/decorator/guard.decorator.ts` (lines 125-171), and the
  argument-check wrapper installed by `Command` in
  `src/src/decorator/controller.decorator.ts` (lines 91-97).
* Event dispatcher: `handleInteraction` (lines 133-224), `handleMessage`
  (lines 226-264), `registerCommands` (lines 92-131) and
  `gracefulShutdown` (lines 307-323) of `src/src/core/meocord.app.ts`.

Handler bodies, the DI container and the platform client are external
collaborators; they are modelled by an environment `env : Nat → String →
Bool` telling which handler invocations throw, and the observable
behaviour of each dispatch procedure is its emitted event trace.
-/

/-- ASCII alphanumeric test, the character class `[a-zA-Z0-9]` used for the
body of every compiled placeholder group. `Char.isAlpha`/`Char.isDigit`
are exactly ASCII `[a-zA-Z]`/`[0-9]`. -/
def isAlnum (c : Char) : Bool :=
  c.isAlpha || c.isDigit

/-- The JavaScript `\w` character class `[A-Za-z0-9_]`, used both to
recognize placeholder names (`\{(\w+)}`) and in the `^\w+$` validity test. -/
def isWordChar (c : Char) : Bool :=
  isAlnum c || c == '_'

/-- One token of the rewritten regex source after placeholder
replacement: a literal character, or a named placeholder standing for
the capture group `(?<name>[a-zA-Z0-9]+)`.  This is also the
quantifier-free view of a compiled regex. -/
inductive Seg where
  | lit (c : Char)
  | param (name : String)
deriving DecidableEq, Repr

/-- Longest `\w*` prefix of the character list, together with the rest.
Models the greedy `\w+` scan of the placeholder-recognition regex
`\{(\w+)}` (greediness is exact here: `}` is not a word character, so the
regex engine never benefits from backtracking into the `\w+`). -/
def takeWord : List Char → List Char × List Char
  | [] => ([], [])
  | c :: cs =>
    if isWordChar c then
      let p := takeWord cs
      (c :: p.1, p.2)
    else ([], c :: cs)

/-- Scanner for `createRegexFromPattern` (src/unnamed/part_019, 420-438):
walks the pattern left to right; a `{` followed by one or more `\w`
characters and a closing `}` becomes a placeholder segment, everything
else a literal-character segment.  The `Except.error` branch embeds the
`throw new Error('Invalid parameter name: ...')` guarded by the
`/^\w+$/.test(param)` check of the source; because the recognition regex
only captures `\w+`, the guard can in fact never fail (proved below).
The first argument is recursion fuel; `parseSegsE` supplies the input
length, which always suffices (the fuel-exhausted branch is dead code,
as every recursive call strictly shrinks the input). -/
def parseSegs : Nat → List Char → Except String (List Seg)
  | _, [] => .ok []
  | 0, _ :: _ => .ok []
  | fuel + 1, c :: cs =>
    if c = '{' then
      match takeWord cs with
      | (w, '}' :: r2) =>
        if w.isEmpty then
          (parseSegs fuel cs).map (fun segs => .lit '{' :: segs)
        else if !w.isEmpty && w.all isWordChar then
          (parseSegs fuel r2).map (fun segs => .param (String.mk w) :: segs)
        else
          .error (("Invalid parameter name: ") ++ String.mk w)
      | (_, _) => (parseSegs fuel cs).map (fun segs => .lit '{' :: segs)
    else
      (parseSegs fuel cs).map (fun segs => .lit c :: segs)

/-- The full scan of a pattern string. -/
def parseSegsE (s : List Char) : Except String (List Seg) :=
  parseSegs s.length s

/-- The name of a placeholder segment, if any. -/
def segParamName : Seg → Option String
  | .param n => some n
  | .lit _ => none

/-- An atom of the constructed regex: a literal character or a named
capture group `(?<name>[a-zA-Z0-9]+)`. -/
inductive RAtom where
  | rlit (c : Char)
  | rgroup (name : String)
deriving DecidableEq, Repr

/-- One element of the constructed regex: a bare atom, or an atom under
a braced quantifier `{lo}`, `{lo,}` (`hi = none`) or `{lo,hi}`.  These
are the only quantifiers that can occur: `*`, `+`, `?`, `(`, `)` are
escaped by the source's escaping pass, while `{` and `}` are not. -/
inductive RSeg where
  | ratom (a : RAtom)
  | rquant (a : RAtom) (lo : Nat) (hi : Option Nat)
deriving DecidableEq, Repr

/-- View of a stage-1 token as a (quantifier-free) regex element. -/
def rsegOfSeg : Seg → RSeg
  | .lit c => .ratom (.rlit c)
  | .param n => .ratom (.rgroup n)

/-- Recover the quantifier-free view of a constructed regex, when it has
no braced quantifier. -/
def rxPlain : List RSeg → Option (List Seg)
  | [] => some []
  | .ratom (.rlit c) :: rs => (rxPlain rs).map (fun l => Seg.lit c :: l)
  | .ratom (.rgroup n) :: rs => (rxPlain rs).map (fun l => Seg.param n :: l)
  | .rquant _ _ _ :: rs => none

/-- Longest prefix of decimal-digit literal tokens, with the rest. -/
def takeDigits : List Seg → List Char × List Seg
  | .lit c :: ts =>
    if c.isDigit then
      let p := takeDigits ts
      (c :: p.1, p.2)
    else ([], .lit c :: ts)
  | ts => ([], ts)

/-- Numeric value of a decimal-digit string. -/
def digitsToNat (ds : List Char) : Nat :=
  ds.foldl (fun a c => 10 * a + (c.toNat - 48)) 0

/-- Try to read a braced-quantifier body right after an opening `{`:
`DecimalDigits}`, `DecimalDigits,}` or `DecimalDigits,DecimalDigits}`
made of literal tokens.  Returns the bounds and the remaining tokens, or
`none` when the chunk is not quantifier-shaped (then the `{` stays a
literal character, per Annex B). -/
def parseQuant (ts : List Seg) : Option (Nat × Option Nat × List Seg) :=
  match takeDigits ts with
  | ([], _) => none
  | (ds, rest) =>
    match rest with
    | .lit '}' :: rest2 => some (digitsToNat ds, some (digitsToNat ds), rest2)
    | .lit ',' :: rest2 =>
      match takeDigits rest2 with
      | (ds2, .lit '}' :: rest3) =>
        some (digitsToNat ds,
          (if ds2.isEmpty then none else some (digitsToNat ds2)), rest3)
      | _ => none
    | _ => none

/-- Whether a group name is rejected by the RegExp constructor: capture
group names must be identifiers, and the `\w+` names captured by the
recognition regex are invalid exactly when they start with a digit. -/
def nameStartsDigit (n : String) : Bool :=
  match n.toList with
  | c :: _ => c.isDigit
  | [] => false

/-- The `new RegExp` construction scan over the stage-1 tokens of the
anchored source `^...$`: group tokens become group atoms (SyntaxError
on a digit-leading or duplicate name); a `{` opening a quantifier-shaped
chunk attaches the quantifier to the pending previous atom (SyntaxError
when nothing quantifiable precedes, i.e. at the start — right after the
`^` anchor — or after another quantifier, or when the bounds are out of
order); every other character is a literal atom.  `prev` is the pending
element a quantifier may still attach to; the first argument is fuel
(every step consumes at least one token, and `rxCompile` supplies one
more than the token count, so the fuel-exhausted branch is dead). -/
def rxScan : Nat → List Seg → Option RSeg → List String → Except String (List RSeg)
  | _, [], prev, _ => .ok prev.toList
  | 0, _ :: _, prev, _ => .ok prev.toList
  | f + 1, .param n :: ts, prev, seen =>
    if nameStartsDigit n then
      .error ("Invalid capture group name")
    else if seen.contains n then
      .error ("Duplicate capture group name")
    else
      (rxScan f ts (some (.ratom (.rgroup n))) (n :: seen)).map
        (fun r => prev.toList ++ r)
  | f + 1, .lit c :: ts, prev, seen =>
    if c = '{' then
      match parseQuant ts with
      | some (lo, hi, rest) =>
        match prev with
        | some (.ratom a) =>
          match hi with
          | some h =>
            if h < lo then .error ("numbers out of order in quantifier")
            else rxScan f rest (some (.rquant a lo (some h))) seen
          | none => rxScan f rest (some (.rquant a lo none)) seen
        | _ => .error ("Nothing to repeat")
      | none =>
        (rxScan f ts (some (.ratom (.rlit '{'))) seen).map (fun r => prev.toList ++ r)
    else
      (rxScan f ts (some (.ratom (.rlit c))) seen).map (fun r => prev.toList ++ r)

/-- The `new RegExp` construction on a stage-1 token list. -/
def rxCompile (ts : List Seg) : Except String (List RSeg) :=
  rxScan (ts.length + 1) ts none []

/-- How compilation can fail: the (dead) `Invalid parameter name` throw
inside `createRegexFromPattern` itself, or a SyntaxError thrown by the
`new RegExp` constructor. -/
inductive CompileError where
  | invalidParameterName (msg : String)
  | regexSyntaxError (msg : String)
deriving DecidableEq, Repr

/-- The compiled result `{ regex, params }` of `createRegexFromPattern`:
the constructed anchored regex and the ordered list of placeholder names
pushed during the replacement. -/
structure CompiledPattern where
  regex : List RSeg
  params : List String
deriving DecidableEq, Repr

/-- Embedding of `createRegexFromPattern` (src/unnamed/part_019, 420-438):
stage 1 rewrites the pattern into tokens (its only throw is the
`Invalid parameter name` error), stage 2 is the `new RegExp('^'...'$')`
construction (its throws are SyntaxErrors). -/
def createRegexFromPattern (pattern : String) : Except CompileError CompiledPattern :=
  match parseSegsE pattern.toList with
  | .error msg => .error (.invalidParameterName msg)
  | .ok toks =>
    match rxCompile toks with
    | .error msg => .error (.regexSyntaxError msg)
    | .ok rsegs => .ok ⟨rsegs, toks.filterMap segParamName⟩

/-- Suffixes of `s` reachable by consuming a nonempty `[a-zA-Z0-9]+` prefix:
the continuation points a backtracking regex engine can reach after a
placeholder group. -/
def paramSuffixes : List Char → List (List Char)
  | [] => []
  | c :: cs => if isAlnum c then cs :: paramSuffixes cs else []

/-- Anchored matching semantics of a compiled pattern against a string
(`regex.test`): literal segments consume exactly their character, a
placeholder consumes one or more alphanumeric characters, and the whole
string must be consumed (the `^...$` anchors). -/
def matchSegs : List Seg → List Char → Bool
  | [], s => s.isEmpty
  | .lit _ :: _, [] => false
  | .lit c :: segs, d :: ds => c == d && matchSegs segs ds
  | .param _ :: segs, s => (paramSuffixes s).any (fun t => matchSegs segs t)

/-- Whether the compiled regex has at least one named capture group; this
decides whether a successful `exec` carries a `groups` object
(`match?.groups` in the dispatcher is falsy for group-free patterns). -/
def segsHasParam (segs : List Seg) : Bool :=
  segs.any (fun s => (segParamName s).isSome)

/-- Remainders of `s` after consuming exactly one repetition of an
atom: a literal consumes its own character, a group consumes one or more
alphanumeric characters (every repetition consumes at least one
character). -/
def atomSuffixes : RAtom → List Char → List (List Char)
  | .rlit _, [] => []
  | .rlit c, d :: ds => if c == d then [ds] else []
  | .rgroup _, s => paramSuffixes s

/-- Decrement an optional upper bound. -/
def decOpt : Option Nat → Option Nat
  | none => none
  | some n => some (n - 1)

/-- Whether the upper bound still allows a further repetition. -/
def hiPos : Option Nat → Bool
  | none => true
  | some n => n != 0

/-- Anchored matching of a constructed regex (`regex.test`), braced
quantifiers included: `rquant a lo hi` consumes between `lo` and `hi`
(unbounded when `none`) repetitions of `a`.  The first argument is fuel;
every step either consumes a character or discharges an element, so
`reTest` supplies `s.length + rs.length + 1`, which always suffices
(the fuel-exhausted branch is dead at that bound). -/
def reMatch : Nat → List RSeg → List Char → Bool
  | 0, _, _ => false
  | _ + 1, [], s => s.isEmpty
  | f + 1, .ratom (.rlit c) :: rs, s =>
    match s with
    | [] => false
    | d :: ds => c == d && reMatch f rs ds
  | f + 1, .ratom (.rgroup _) :: rs, s =>
    (paramSuffixes s).any (fun t => reMatch f rs t)
  | f + 1, .rquant a lo hi :: rs, s =>
    match lo with
    | 0 =>
      reMatch f rs s ||
        (hiPos hi &&
          (atomSuffixes a s).any (fun t => reMatch f (.rquant a 0 (decOpt hi) :: rs) t))
    | lo2 + 1 =>
      (atomSuffixes a s).any (fun t => reMatch f (.rquant a lo2 (decOpt hi) :: rs) t)

/-- `regex.test` on a constructed regex. -/
def reTest (rs : List RSeg) (s : List Char) : Bool :=
  reMatch (s.length + rs.length + 1) rs s

/-- Spec-side characterization: `s` is obtained from the pattern by
replacing each `{name}` placeholder with one or more alphanumeric
characters while every other character is kept literally. -/
def Instantiates : List Seg → List Char → Prop
  | [], s => s = []
  | .lit c :: segs, s => ∃ t, s = c :: t ∧ Instantiates segs t
  | .param _ :: segs, s =>
    ∃ w t, w ≠ [] ∧ (∀ c ∈ w, isAlnum c = true) ∧ s = w ++ t ∧ Instantiates segs t

/-- Substitute the given strings, one per placeholder occurrence in order,
into the pattern (`none` when the counts disagree).  Used to state the
negative half of the matcher claim: substitutions containing
non-alphanumeric characters. -/
def substOccs : List Seg → List (List Char) → Option (List Char)
  | [], [] => some []
  | [], _ :: _ => none
  | .lit c :: segs, ws => (substOccs segs ws).map (fun t => c :: t)
  | .param _ :: segs, [] => none
  | .param _ :: segs, w :: ws => (substOccs segs ws).map (fun t => w ++ t)

/-- Number of non-alphanumeric characters of a string. -/
def badCount (s : List Char) : Nat :=
  s.countP (fun c => !isAlnum c)

/-- Number of non-alphanumeric literal characters of a pattern. -/
def litBad : List Seg → Nat
  | [] => 0
  | .lit c :: segs => (if isAlnum c then 0 else 1) + litBad segs
  | .param _ :: segs => litBad segs

/-! ## Guard chain (`UseGuard` wrapper, src/src/decorator/guard.decorator.ts 125-171) -/

/-- Runtime class of the first argument handed to a wrapped handler
method: a platform interaction (`instanceof BaseInteraction`), a plain
message (`instanceof Message`), or anything else. -/
inductive FirstArg where
  | interaction
  | message
  | other
deriving DecidableEq, Repr

/-- A guard as the wrapper observes it once resolved from the container:
its identity, whether the resolved instance exposes a `canActivate`
method, and the boolean that `canActivate` returns (resolves to) for the
current invocation. -/
structure SpecdGuard where
  gid : Nat
  hasCanActivate : Bool
  result : Bool
deriving DecidableEq, Repr

/-- Observable steps of one call to a guard-wrapped method. -/
inductive GuardEvent where
  | resolved (gid : Nat)
  | canActivateCalled (gid : Nat)
  | originalRan
deriving DecidableEq, Repr

/-- Terminal outcome of one call to a wrapped method. -/
inductive GuardOutcome where
  | ran
  | blocked
  | threw
deriving DecidableEq, Repr

/-- The `for (const guard of guards)` loop of the `UseGuard` wrapper:
resolve the guard, throw if it lacks `canActivate`, call `canActivate`,
return (blocking the method) on `false`, and run the original method
after the last guard passes. -/
def runGuardLoop : List SpecdGuard → GuardOutcome × List GuardEvent
  | [] => (.ran, [.originalRan])
  | g :: gs =>
    if g.hasCanActivate then
      if g.result then
        let r := runGuardLoop gs
        (r.1, .resolved g.gid :: .canActivateCalled g.gid :: r.2)
      else
        (.blocked, [.resolved g.gid, .canActivateCalled g.gid])
    else
      (.threw, [.resolved g.gid])

/-- The `descriptor.value` installed by `UseGuard(...)`: first the
`args[0] instanceof BaseInteraction` check (throwing before any guard is
resolved), then the guard loop. -/
def useGuardWrapped (guards : List SpecdGuard) (arg : FirstArg) :
    GuardOutcome × List GuardEvent :=
  if arg = .interaction then runGuardLoop guards else (.threw, [])

/-- The `descriptor.value` installed by the `Command` decorator
(src/src/decorator/controller.decorator.ts 91-97): throw unless the
first argument is a `BaseInteraction` or a `Message`, else run the
original method. -/
def commandWrapped (arg : FirstArg) : GuardOutcome × List GuardEvent :=
  if arg = .interaction || arg = .message then (.ran, [.originalRan]) else (.threw, [])

/-! ## Interaction dispatch (`handleInteraction`, src/src/core/meocord.app.ts 133-224) -/

/-- The `CommandType` string-enum of `src/src/enum/controller.enum.ts`. -/
inductive CommandType where
  | SLASH
  | BUTTON
  | CONTEXT_MENU
  | SELECT_MENU
  | MESSAGE
  | MODAL_SUBMIT
deriving DecidableEq, Repr

/-- Key set of the `CommandType` enum object; for a TypeScript string enum
there is no reverse mapping, so `type in CommandType` is a key lookup. -/
def commandTypeKeys : List String :=
  ["SLASH", "BUTTON", "CONTEXT_MENU", "SELECT_MENU", "MESSAGE", "MODAL_SUBMIT"]

/-- The string value of a `CommandType` member (equal to its key name in
this enum). -/
def commandTypeValue : CommandType → String
  | .SLASH => "SLASH"
  | .BUTTON => "BUTTON"
  | .CONTEXT_MENU => "CONTEXT_MENU"
  | .SELECT_MENU => "SELECT_MENU"
  | .MESSAGE => "MESSAGE"
  | .MODAL_SUBMIT => "MODAL_SUBMIT"

/-- The `type in CommandType` test of `registerCommands`. -/
def typeInCommandType (t : CommandType) : Bool :=
  commandTypeKeys.contains (commandTypeValue t)

/-- One `CommandMetadata` entry (src/src/interface/command-decorator.interface.ts):
method name, optional platform-command builder (identified by a number),
declared category and optional compiled pattern. -/
structure CommandMeta where
  methodName : String
  builder : Option Nat
  type : CommandType
  regex : Option (List Seg)
deriving DecidableEq, Repr

/-- A registered controller: its identity (standing for the class
reference / resolved instance) and its command map, an insertion-ordered
record from command identifier to an array of metadata entries. -/
structure IController where
  cid : Nat
  commandMap : List (String × List CommandMeta)
deriving DecidableEq, Repr

/-- Inbound interaction event, tagged with its platform subtype (the
`isChatInputCommand()`, `isButton()`, ... type guards);
`nonRepliable` stands for the remaining subtypes (e.g. autocomplete),
which the dispatcher neither matches nor replies to. -/
inductive DInteraction where
  | chatInput (commandName : String)
  | button (customId : String)
  | stringSelect (customId : String)
  | modalSubmit (customId : String)
  | userContextMenu (commandName : String)
  | messageContextMenu (commandName : String)
  | nonRepliable
deriving DecidableEq, Repr

def DInteraction.isChatInputCommand : DInteraction → Bool
  | .chatInput _ => true
  | _ => false

def DInteraction.isButton : DInteraction → Bool
  | .button _ => true
  | _ => false

def DInteraction.isStringSelectMenu : DInteraction → Bool
  | .stringSelect _ => true
  | _ => false

def DInteraction.isModalSubmit : DInteraction → Bool
  | .modalSubmit _ => true
  | _ => false

def DInteraction.isUserContextMenuCommand : DInteraction → Bool
  | .userContextMenu _ => true
  | _ => false

def DInteraction.isMessageContextMenuCommand : DInteraction → Bool
  | .messageContextMenu _ => true
  | _ => false

/-- `interaction.isRepliable()`: true for every subtype the dispatcher
handles, false for the residual `nonRepliable` subtypes. -/
def DInteraction.isRepliable : DInteraction → Bool
  | .nonRepliable => false
  | _ => true

/-- Object-key lookup `commandMap[commandIdentifier]`. -/
def lookupCmd (map : List (String × List CommandMeta)) (k : String) :
    Option (List CommandMeta) :=
  (map.find? (fun e => e.1 == k)).map (fun e => e.2)

/-- The per-entry test of the `Object.entries(commandMap).find`
callback for component interactions: `meta.regex.exec(customId)` with a
`groups` object (the regex matches and has at least one named group)
or, failing that, `customId === commandName`. -/
def metaMatchesCustomId (customId name : String) (m : CommandMeta) : Bool :=
  match m.regex with
  | none => false
  | some segs => (matchSegs segs customId.toList && segsHasParam segs) || customId == name

/-- The `Object.entries(commandMap).find(...)` scan for
button/select-menu/modal interactions. -/
def findCommandEntry (map : List (String × List CommandMeta)) (customId : String) :
    Option (String × List CommandMeta) :=
  map.find? (fun e => e.2.any (metaMatchesCustomId customId e.1))

/-- Command identifier and metadata entry the dispatcher settles on for
one controller, if any: exact-name lookup for chat-input and
context-menu interactions, pattern scan for component interactions, and
in both cases the HEAD (`commandMetadataArray[0]`) of the metadata
array, provided the array is nonempty. -/
def selectMeta (c : IController) (i : DInteraction) : Option (String × CommandMeta) :=
  match i with
  | .chatInput name | .userContextMenu name | .messageContextMenu name =>
    match lookupCmd c.commandMap name with
    | some (m :: _) => some (name, m)
    | _ => none
  | .button customId | .stringSelect customId | .modalSubmit customId =>
    match findCommandEntry c.commandMap customId with
    | some (_, m :: _) => some (customId, m)
    | _ => none
  | .nonRepliable => none

/-- The category-to-subtype compatibility check of `handleInteraction`
(the six-way disjunction at lines 175-182). -/
def typeMatches (t : CommandType) (i : DInteraction) : Bool :=
  (t == .SLASH && i.isChatInputCommand) ||
  (t == .BUTTON && i.isButton) ||
  (t == .SELECT_MENU && i.isStringSelectMenu) ||
  (t == .CONTEXT_MENU && i.isUserContextMenuCommand) ||
  (t == .CONTEXT_MENU && i.isMessageContextMenuCommand) ||
  (t == .MODAL_SUBMIT && i.isModalSubmit)

/-- Observable events of one interaction dispatch. -/
inductive DEvent where
  | invoked (cid : Nat) (methodName : String)
  | warnedMismatch (identifier : String)
  | errorLogged (identifier : String)
  | repliedError
  | repliedNotFound
deriving DecidableEq, Repr

/-- Embedding of `handleInteraction`: scan the controllers in
registration order; on the first controller whose command map yields a
nonempty metadata array, act on the head entry — invoke it when its
category matches the event subtype (logging and replying with a generic
error if the handler throws, the reply sent only when the interaction is
repliable), or log a type-mismatch warning — and in either case return
without scanning further.  Only when no controller yields an entry is
the generic `Command not found!` reply sent (again only if repliable).
`env cid methodName = true` means that handler invocation throws. -/
def handleInteraction (cs : List IController) (i : DInteraction)
    (env : Nat → String → Bool) : List DEvent :=
  match cs with
  | [] => if i.isRepliable then [.repliedNotFound] else []
  | c :: rest =>
    match selectMeta c i with
    | none => handleInteraction rest i env
    | some (identifier, m) =>
      if typeMatches m.type i then
        if env c.cid m.methodName then
          [.invoked c.cid m.methodName, .errorLogged identifier] ++
            (if i.isRepliable then [.repliedError] else [])
        else
          [.invoked c.cid m.methodName]
      else
        [.warnedMismatch identifier]

/-! ## Message dispatch (`handleMessage`, src/src/core/meocord.app.ts 226-264) -/

/-- One message-handler metadata entry `{ keyword?, method }`. -/
structure MsgHandler where
  keyword : Option String
  method : String
deriving DecidableEq, Repr

/-- A controller as the message dispatcher sees it. -/
structure MsgController where
  cid : Nat
  handlers : List MsgHandler
deriving DecidableEq, Repr

/-- Inbound message event: author-is-bot flag and raw content. -/
structure InMessage where
  authorBot : Bool
  content : String
deriving DecidableEq, Repr

/-- JavaScript `String.prototype.trim()`: strip leading and trailing
whitespace.  An executable counterpart of `String.trim` (which is
defined by well-founded recursion and does not evaluate inside the
kernel); whitespace is `Char.isWhitespace`, covering the space, tab and
line-terminator characters relevant to chat content. -/
def jsTrim (s : String) : String :=
  String.mk ((((s.toList.dropWhile Char.isWhitespace).reverse).dropWhile
    Char.isWhitespace).reverse)

/-- JavaScript truthiness of the optional keyword: `undefined` and the
empty string are falsy. -/
def kwTruthy : Option String → Bool
  | none => false
  | some k => k != ""

/-- The per-handler test `!handler.keyword || handler.keyword === messageContent`. -/
def msgMatches (content : String) (h : MsgHandler) : Bool :=
  !kwTruthy h.keyword || h.keyword == some content

/-- The `messageHandlers.sort(...)` step: the comparator orders
truthy-keyword entries before the rest and is otherwise tie-everything,
so (sort being stable, per the ECMAScript spec) it splits the list into
the truthy-keyword entries followed by the rest, each side in original
order. -/
def sortHandlers (hs : List MsgHandler) : List MsgHandler :=
  hs.filter (fun h => kwTruthy h.keyword) ++ hs.filter (fun h => !kwTruthy h.keyword)

/-- Observable events of one message dispatch. -/
inductive MEvent where
  | minvoked (cid : Nat) (methodName : String)
  | merrorLogged (methodName : String)
deriving DecidableEq, Repr

/-- The inner `for (const handler of messageHandlers)` loop for one
controller: invoke every matching handler in sorted order; a throwing
handler (per `env`) only adds an error-log event and the loop goes on. -/
def runMsgHandlers (env : Nat → String → Bool) (content : String)
    (c : MsgController) : List MEvent :=
  (sortHandlers c.handlers).flatMap (fun h =>
    if msgMatches content h then
      MEvent.minvoked c.cid h.method ::
        (if env c.cid h.method then [MEvent.merrorLogged h.method] else [])
    else [])

/-- The `relevantControllers` filter: keep controllers having at least one
matching entry. -/
def relevantMsg (content : String) (c : MsgController) : Bool :=
  c.handlers.any (msgMatches content)

/-- Embedding of `handleMessage`: drop bot-authored and
empty-after-trimming messages, then run every matching handler of every
relevant controller on the trimmed content. -/
def handleMessage (cs : List MsgController) (m : InMessage)
    (env : Nat → String → Bool) : List MEvent :=
  if m.authorBot || (jsTrim m.content) == "" then []
  else (cs.filter (relevantMsg (jsTrim m.content))).flatMap (runMsgHandlers env (jsTrim m.content))

/-- The invocation trace of a message dispatch (controller identity and
method name of each handler call, in order). -/
def msgInvocations (tr : List MEvent) : List (Nat × String) :=
  tr.filterMap (fun e =>
    match e with
    | .minvoked c m => some (c, m)
    | _ => none)

/-- Spec-side expectation for one controller: all matching
truthy-keyword entries (in declaration order), then all matching
keywordless/catch-all entries. -/
def expectedInvocations (content : String) (c : MsgController) : List (Nat × String) :=
  ((c.handlers.filter (fun h => kwTruthy h.keyword && msgMatches content h)).map
    (fun h => (c.cid, h.method))) ++
  ((c.handlers.filter (fun h => !kwTruthy h.keyword && msgMatches content h)).map
    (fun h => (c.cid, h.method)))

/-! ## Startup command registration (`registerCommands`, src/src/core/meocord.app.ts 92-131) -/

/-- The builder-collection loop of `registerCommands`: for every
controller, every command-map entry and every metadata element, push the
builder when `type in CommandType && builder`. -/
def collectBuilders (cs : List IController) : List Nat :=
  cs.flatMap (fun c =>
    c.commandMap.flatMap (fun e =>
      e.2.filterMap (fun m =>
        if typeInCommandType m.type then m.builder else none)))

/-- Observable platform calls of `registerCommands`. -/
inductive RegEvent where
  | setCommands (builders : List Nat)
deriving DecidableEq, Repr

/-- Embedding of `registerCommands`: one bulk
`application.commands.set(builders)` call with the collected list. -/
def registerCommands (cs : List IController) : List RegEvent :=
  [.setCommands (collectBuilders cs)]

/-! ## Graceful shutdown (`gracefulShutdown`, src/src/core/meocord.app.ts 307-323) -/

/-- The application state the shutdown path reads and writes: whether the
client object exists (always true after the constructor ran), the
`isShuttingDown` latch, and how many times `bot.destroy()` has been
called. -/
structure AppState where
  hasBot : Bool
  isShuttingDown : Bool
  destroyCalls : Nat
deriving DecidableEq, Repr

/-- Observable steps of the shutdown path. -/
inductive ShutEvent where
  | removedListeners
  | destroyCalled
  | errorLogged
  | waited (ms : Nat)
  | exited (code : Nat)
deriving DecidableEq, Repr

/-- Embedding of `gracefulShutdown`: a no-op once `isShuttingDown` is
set; otherwise set the latch, detach all listeners, destroy the client
(`destroyThrows` says whether the close sequence throws), wait the fixed
100 ms grace period and exit with code 0 on both the normal and the
error path.  The latch is set before the first suspension point, so
under the single-threaded event-loop model a re-entrant signal always
sees it. -/
def gracefulShutdown (s : AppState) (destroyThrows : Bool) :
    AppState × List ShutEvent :=
  if s.hasBot && !s.isShuttingDown then
    let s1 : AppState := { s with isShuttingDown := true, destroyCalls := s.destroyCalls + 1 }
    if destroyThrows then
      (s1, [.removedListeners, .destroyCalled, .errorLogged, .waited 100, .exited 0])
    else
      (s1, [.removedListeners, .destroyCalled, .waited 100, .exited 0])
  else
    (s, [])

/-- Segment list of the compiled example pattern `profile-{id}` (the
pattern used in the source doc comments and the spec's end-to-end
scenario). -/
def profileSegs : List Seg :=
  [.lit 'p', .lit 'r', .lit 'o', .lit 'f', .lit 'i', .lit 'l', .lit 'e', .lit '-',
   .param ("id")]

/-- The constructed regex of the pattern `profile-{id}`: the same
segments, with the placeholder as a named group and no quantifier. -/
def profileRSegs : List RSeg :=
  profileSegs.map rsegOfSeg


/-- Example metadata entry: a BUTTON-typed handler registered under the
identifier `ping` (its compiled pattern is the four literal characters,
as the `Command` decorator compiles identifiers of non-SLASH entries). -/
def pingButtonMeta : CommandMeta :=
  ⟨("m1"), none, .BUTTON, some [.lit 'p', .lit 'i', .lit 'n', .lit 'g']⟩

/-- Example metadata entry: a SLASH-typed handler named `m2` for the
identifier `ping`. -/
def pingSlashMeta : CommandMeta :=
  ⟨("m2"), none, .SLASH, none⟩

/-- Example metadata entry: a BUTTON-typed handler `m3` registered under
the pattern `profile-{id}`, carrying its compiled pattern. -/
def profileButtonMeta : CommandMeta :=
  ⟨("m3"), none, .BUTTON, some profileSegs⟩

/-- A controller holding two entries under the single identifier
`profile-{id}`: the SLASH-typed `m2` entry first (no pattern), the
BUTTON-typed `m3` entry (with pattern) second — so a component event can
only be matched via the SECOND entry, yet the head is dispatched. -/
def headSlashController : IController :=
  ⟨2, [(("profile-{id}"), [pingSlashMeta, profileButtonMeta])]⟩

/-- A controller whose only `ping` entry is BUTTON-typed. -/
def mismatchFirstController : IController :=
  ⟨0, [(("ping"), [pingButtonMeta])]⟩

/-- A controller whose only `ping` entry is SLASH-typed. -/
def slashSecondController : IController :=
  ⟨1, [(("ping"), [pingSlashMeta])]⟩

/-- A controller holding both entries under the single identifier
`ping`: the BUTTON-typed one first, the SLASH-typed one second. -/
def twoEntryController : IController :=
  ⟨0, [(("ping"), [pingButtonMeta, pingSlashMeta])]⟩

/-- Two message controllers, each with one `ping`-filtered handler
`m1` and one unfiltered catch-all `m2`. -/
def twoPingControllers : List MsgController :=
  [⟨0, [⟨some ("ping"), ("m1")⟩, ⟨none, ("m2")⟩]⟩,
   ⟨1, [⟨some ("ping"), ("m1")⟩, ⟨none, ("m2")⟩]⟩]

/-- A non-bot inbound message with content `ping`. -/
def pingMessage : InMessage :=
  ⟨false, ("ping")⟩

/-! ## Lemmas: pattern compiler and matcher -/

theorem takeWord_word (s : List Char) : ∀ c ∈ (takeWord s).1, isWordChar c = true := by
  induction s with
  | nil => simp [takeWord]
  | cons c cs ih =>
    by_cases h : isWordChar c
    · simp only [takeWord, h, if_pos]
      intro d hd
      rcases List.mem_cons.mp hd with h1 | h1
      · exact h1 ▸ h
      · exact ih d h1
    · simp [takeWord, h]

theorem paramSuffixes_mem (s t : List Char) :
    t ∈ paramSuffixes s ↔
      ∃ w, w ≠ [] ∧ (∀ c ∈ w, isAlnum c = true) ∧ s = w ++ t := by
  induction s with
  | nil =>
    simp only [paramSuffixes, List.not_mem_nil, false_iff]
    rintro ⟨w, hw, -, heq⟩
    cases w with
    | nil => exact hw rfl
    | cons d w2 => exact List.cons_ne_nil d (w2 ++ t) heq.symm
  | cons c cs ih =>
    by_cases hc : isAlnum c
    · simp only [paramSuffixes, hc, if_true, List.mem_cons]
      constructor
      · intro h
        rcases h with h | h
        · exact ⟨[c], List.cons_ne_nil c [], by simpa using hc, by simp [h]⟩
        · obtain ⟨w, hw, hall, heq⟩ := ih.mp h
          refine ⟨c :: w, List.cons_ne_nil c w, ?_, by simp [heq]⟩
          intro d hd
          rcases List.mem_cons.mp hd with h1 | h1
          · exact h1 ▸ hc
          · exact hall d h1
      · rintro ⟨w, hw, hall, heq⟩
        cases w with
        | nil => exact absurd rfl hw
        | cons d w2 =>
          simp only [List.cons_append, List.cons.injEq] at heq
          obtain ⟨-, heq2⟩ := heq
          cases w2 with
          | nil => exact Or.inl (by simpa using heq2.symm)
          | cons e w3 =>
            refine Or.inr (ih.mpr ⟨e :: w3, List.cons_ne_nil e w3, ?_, heq2⟩)
            intro x hx
            exact hall x (List.mem_cons_of_mem d hx)
    · have hps : paramSuffixes (c :: cs) = [] := by simp [paramSuffixes, hc]
      rw [hps]
      simp only [List.not_mem_nil, false_iff]
      rintro ⟨w, hw, hall, heq⟩
      cases w with
      | nil => exact hw rfl
      | cons d w2 =>
        simp only [List.cons_append, List.cons.injEq] at heq
        exact hc (heq.1 ▸ hall d (List.mem_cons_self d w2))

theorem matchSegs_iff (segs : List Seg) :
    ∀ s, matchSegs segs s = true ↔ Instantiates segs s := by
  induction segs with
  | nil =>
    intro s
    simp [matchSegs, Instantiates, List.isEmpty_iff]
  | cons sg segs ih =>
    intro s
    cases sg with
    | lit c =>
      cases s with
      | nil =>
        simp only [matchSegs, Instantiates, Bool.false_eq_true, false_iff]
        rintro ⟨t, ht, -⟩
        exact List.cons_ne_nil c t ht.symm
      | cons d ds =>
        simp only [matchSegs, Instantiates, Bool.and_eq_true, beq_iff_eq]
        constructor
        · rintro ⟨hcd, hm⟩
          exact ⟨ds, by rw [hcd], (ih ds).mp hm⟩
        · rintro ⟨t, ht, hinst⟩
          simp only [List.cons.injEq] at ht
          exact ⟨ht.1.symm, ht.2 ▸ (ih t).mpr hinst⟩
    | param n =>
      simp only [matchSegs, Instantiates, List.any_eq_true]
      constructor
      · rintro ⟨t, htmem, hm⟩
        obtain ⟨w, hw, hall, heq⟩ := (paramSuffixes_mem s t).mp htmem
        exact ⟨w, t, hw, hall, heq, (ih t).mp hm⟩
      · rintro ⟨w, t, hw, hall, heq, hinst⟩
        exact ⟨t, (paramSuffixes_mem s t).mpr ⟨w, hw, hall, heq⟩, (ih t).mpr hinst⟩

theorem badCount_append (s t : List Char) :
    badCount (s ++ t) = badCount s + badCount t := by
  simp [badCount, List.countP_append]

theorem badCount_of_alnum (w : List Char) (hall : ∀ c ∈ w, isAlnum c = true) :
    badCount w = 0 := by
  simp only [badCount, List.countP_eq_zero]
  intro c hc
  simp [hall c hc]

theorem badCount_pos_of_bad (w : List Char) (c : Char) (hc : c ∈ w)
    (hbad : isAlnum c = false) : 0 < badCount w := by
  rw [badCount, List.countP_pos]
  exact ⟨c, hc, by simp [hbad]⟩

theorem instantiates_badCount (segs : List Seg) :
    ∀ s, Instantiates segs s → badCount s = litBad segs := by
  induction segs with
  | nil =>
    intro s h
    rw [show s = [] from h]
    simp [badCount, litBad]
  | cons sg segs ih =>
    intro s h
    cases sg with
    | lit c =>
      obtain ⟨t, rfl, hinst⟩ := h
      have ht := ih t hinst
      simp only [badCount, List.countP_cons, litBad] at *
      by_cases hc : isAlnum c <;> simp [hc, ht] <;> omega
    | param n =>
      obtain ⟨w, t, -, hall, rfl, hinst⟩ := h
      rw [badCount_append, badCount_of_alnum w hall, ih t hinst]
      simp [litBad]

theorem substOccs_badCount (segs : List Seg) :
    ∀ ws s, substOccs segs ws = some s →
      badCount s = litBad segs + (ws.map badCount).sum := by
  induction segs with
  | nil =>
    intro ws s h
    cases ws with
    | nil =>
      simp only [substOccs, Option.some.injEq] at h
      simp [← h, badCount, litBad]
    | cons w ws2 => exact absurd h (by simp [substOccs])
  | cons sg segs ih =>
    intro ws s h
    cases sg with
    | lit c =>
      rcases hs : substOccs segs ws with - | t
      · rw [substOccs, hs] at h
        exact Option.noConfusion h
      · rw [substOccs, hs] at h
        simp only [Option.map_some'] at h
        injection h with h
        subst h
        have ht := ih ws t hs
        simp only [badCount, List.countP_cons, litBad] at *
        by_cases hc : isAlnum c <;> simp [hc, ht] <;> omega
    | param n =>
      cases ws with
      | nil => exact absurd h (by simp [substOccs])
      | cons w ws2 =>
        rcases hs : substOccs segs ws2 with - | t
        · rw [substOccs, hs] at h
          exact Option.noConfusion h
        · rw [substOccs, hs] at h
          simp only [Option.map_some'] at h
          injection h with h
          subst h
          rw [badCount_append, ih ws2 t hs]
          simp only [litBad, List.map_cons, List.sum_cons]
          omega

theorem matchSegs_false_of_bad_subst (segs : List Seg) (ws : List (List Char))
    (s : List Char) (hsub : substOccs segs ws = some s)
    (hbad : ∃ w ∈ ws, ∃ c ∈ w, isAlnum c = false) :
    matchSegs segs s = false := by
  rcases hm : matchSegs segs s with - | -
  · rfl
  · exfalso
    have h1 := instantiates_badCount segs s ((matchSegs_iff segs s).mp hm)
    have h2 := substOccs_badCount segs ws s hsub
    obtain ⟨w, hwmem, c, hcmem, hc⟩ := hbad
    have h3 : 0 < badCount w := badCount_pos_of_bad w c hcmem hc
    have h4 : badCount w ≤ (ws.map badCount).sum :=
      List.single_le_sum (fun x _ => Nat.zero_le x) (badCount w)
        (List.mem_map_of_mem badCount hwmem)
    omega

theorem matchSegs_false_of_append_bad (segs : List Seg) (s : List Char) (c : Char)
    (hm : matchSegs segs s = true) (hc : isAlnum c = false) :
    matchSegs segs (s ++ [c]) = false ∧ matchSegs segs (c :: s) = false := by
  have h1 := instantiates_badCount segs s ((matchSegs_iff segs s).mp hm)
  constructor
  · rcases hm2 : matchSegs segs (s ++ [c]) with - | -
    · rfl
    · exfalso
      have h2 := instantiates_badCount segs (s ++ [c]) ((matchSegs_iff segs (s ++ [c])).mp hm2)
      rw [badCount_append] at h2
      have h3 : 0 < badCount [c] := badCount_pos_of_bad [c] c (by simp) hc
      omega
  · rcases hm2 : matchSegs segs (c :: s) with - | -
    · rfl
    · exfalso
      have h2 := instantiates_badCount segs (c :: s) ((matchSegs_iff segs (c :: s)).mp hm2)
      have h3 : badCount (c :: s) = badCount s + 1 := by
        simp [badCount, List.countP_cons, hc]
      omega

theorem takeWord_rest_length (s : List Char) : (takeWord s).2.length ≤ s.length := by
  induction s with
  | nil => simp [takeWord]
  | cons c cs ih =>
    by_cases h : isWordChar c
    · simp only [takeWord, h, if_pos]
      exact Nat.le_succ_of_le ih
    · simp [takeWord, h]

theorem parseSegs_ok (fuel : Nat) :
    ∀ s : List Char, s.length ≤ fuel → ∃ segs, parseSegs fuel s = Except.ok segs := by
  induction fuel with
  | zero =>
    intro s h
    cases s with
    | nil => exact ⟨[], rfl⟩
    | cons c cs => simp at h
  | succ f ih =>
    intro s h
    cases s with
    | nil => exact ⟨[], rfl⟩
    | cons c cs =>
      have hcs : cs.length ≤ f := by
        simp only [List.length_cons] at h
        omega
      rw [parseSegs]
      by_cases hc : c = '{'
      · rw [if_pos hc]
        split
        next w r2 heq =>
          by_cases hw : w.isEmpty
          · obtain ⟨segs, hsegs⟩ := ih cs hcs
            exact ⟨.lit '{' :: segs, by rw [if_pos hw, hsegs]; rfl⟩
          · have hall : w.all isWordChar = true := by
              rw [List.all_eq_true]
              intro x hx
              have h2 := takeWord_word cs x
              rw [heq] at h2
              exact h2 hx
            have hr2 : r2.length ≤ f := by
              have h3 := takeWord_rest_length cs
              rw [heq] at h3
              simp only [List.length_cons] at h3
              omega
            obtain ⟨segs, hsegs⟩ := ih r2 hr2
            refine ⟨.param (String.mk w) :: segs, ?_⟩
            have hcond : (!w.isEmpty && w.all isWordChar) = true := by
              rw [hall, Bool.and_true, Bool.not_eq_true']
              exact Bool.eq_false_iff.mpr hw
            rw [if_neg hw, if_pos hcond, hsegs]
            rfl
        next fst snd hno heq =>
          obtain ⟨segs, hsegs⟩ := ih cs hcs
          exact ⟨.lit '{' :: segs, by rw [hsegs]; rfl⟩
      · rw [if_neg hc]
        obtain ⟨segs, hsegs⟩ := ih cs hcs
        exact ⟨.lit c :: segs, by rw [hsegs]; rfl⟩

theorem parseSegsE_ok (s : List Char) : ∃ segs, parseSegsE s = Except.ok segs :=
  parseSegs_ok s.length s (Nat.le_refl _)

/-! ## Lemmas: constructed regexes and their quantifier-free view -/

theorem createRegexFromPattern_eq (p : String) (toks : List Seg)
    (h : parseSegsE p.toList = Except.ok toks) :
    createRegexFromPattern p =
      (match rxCompile toks with
        | Except.error msg => Except.error (CompileError.regexSyntaxError msg)
        | Except.ok rsegs => Except.ok ⟨rsegs, toks.filterMap segParamName⟩) := by
  rw [createRegexFromPattern, h]

theorem paramSuffixes_length (s t : List Char) (h : t ∈ paramSuffixes s) :
    t.length < s.length := by
  obtain ⟨w, hw, -, rfl⟩ := (paramSuffixes_mem s t).mp h
  cases w with
  | nil => exact absurd rfl hw
  | cons c w2 =>
    rw [List.cons_append, List.length_cons, List.length_append]
    omega

theorem rxPlain_eq_map (rs : List RSeg) :
    ∀ segs : List Seg, rxPlain rs = some segs → rs = segs.map rsegOfSeg := by
  induction rs with
  | nil =>
    intro segs h
    simp only [rxPlain, Option.some.injEq] at h
    rw [← h]
    rfl
  | cons r rs ih =>
    intro segs h
    cases r with
    | ratom a =>
      cases a with
      | rlit c =>
        rcases hr : rxPlain rs with - | l
        · rw [rxPlain, hr] at h
          exact Option.noConfusion h
        · rw [rxPlain, hr] at h
          simp only [Option.map_some'] at h
          injection h with h
          rw [← h, List.map_cons, rsegOfSeg, ← ih l hr]
      | rgroup n =>
        rcases hr : rxPlain rs with - | l
        · rw [rxPlain, hr] at h
          exact Option.noConfusion h
        · rw [rxPlain, hr] at h
          simp only [Option.map_some'] at h
          injection h with h
          rw [← h, List.map_cons, rsegOfSeg, ← ih l hr]
    | rquant a lo hi =>
      rw [rxPlain] at h
      exact Option.noConfusion h

theorem any_eq_of_mem_eq {α : Type} (l : List α) (p q : α → Bool)
    (h : ∀ a ∈ l, p a = q a) : l.any p = l.any q := by
  induction l with
  | nil => rfl
  | cons a l ih =>
    rw [List.any_cons, List.any_cons, h a (List.mem_cons_self a l),
      ih (fun b hb => h b (List.mem_cons_of_mem a hb))]

theorem reMatch_plain (segs : List Seg) :
    ∀ (s : List Char) (f : Nat), s.length + segs.length + 1 ≤ f →
      reMatch f (segs.map rsegOfSeg) s = matchSegs segs s := by
  induction segs with
  | nil =>
    intro s f hf
    obtain ⟨f2, rfl⟩ : ∃ f2, f = f2 + 1 := ⟨f - 1, by omega⟩
    rfl
  | cons sg segs ih =>
    intro s f hf
    obtain ⟨f2, rfl⟩ : ∃ f2, f = f2 + 1 := ⟨f - 1, by omega⟩
    cases sg with
    | lit c =>
      cases s with
      | nil => rfl
      | cons d ds =>
        show (c == d && reMatch f2 (segs.map rsegOfSeg) ds) = (c == d && matchSegs segs ds)
        rw [ih ds f2 (by simp only [List.length_cons] at hf ⊢; omega)]
    | param n =>
      show (paramSuffixes s).any (fun t => reMatch f2 (segs.map rsegOfSeg) t) =
        (paramSuffixes s).any (fun t => matchSegs segs t)
      apply any_eq_of_mem_eq
      intro t ht
      have hlen := paramSuffixes_length s t ht
      exact ih t f2 (by simp only [List.length_cons] at hf; omega)

theorem reTest_plain (rs : List RSeg) (segs : List Seg)
    (hplain : rxPlain rs = some segs) :
    ∀ s : List Char, reTest rs s = matchSegs segs s := by
  intro s
  rw [reTest, rxPlain_eq_map rs segs hplain]
  exact reMatch_plain segs s (s.length + (segs.map rsegOfSeg).length + 1)
    (by simp)

/-! ## Fidelity checks of the two-stage compiler on boundary inputs -/

/-- A surviving `{m,n}` chunk compiles into a braced quantifier, as in
the source's `new RegExp`: the compiled `a{2,3}` accepts `aa` and `aaa`
and rejects the literal string `a{2,3}` and the too-long `aaaa`. -/
theorem rx_quantifier_chunk_check :
    createRegexFromPattern ("a{2,3}") =
      Except.ok ⟨[.rquant (.rlit 'a') 2 (some 3)], []⟩ ∧
    reTest [.rquant (.rlit 'a') 2 (some 3)] (String.toList ("aa")) = true ∧
    reTest [.rquant (.rlit 'a') 2 (some 3)] (String.toList ("aaa")) = true ∧
    reTest [.rquant (.rlit 'a') 2 (some 3)] (String.toList ("aaaa")) = false ∧
    reTest [.rquant (.rlit 'a') 2 (some 3)] (String.toList ("a{2,3}")) = false :=
  ⟨rfl, rfl, rfl, rfl, rfl⟩

/-- A digit-leading placeholder name yields a SyntaxError from the
RegExp constructor (invalid capture group name), not a successful
compile and not the InvalidParameterName throw. -/
theorem rx_invalid_group_name_check :
    createRegexFromPattern ("{2x}") =
      Except.error (.regexSyntaxError ("Invalid capture group name")) :=
  rfl

/-- A repeated placeholder name yields a SyntaxError from the RegExp
constructor (duplicate capture group name). -/
theorem rx_duplicate_group_name_check :
    createRegexFromPattern ("{id}-{id}") =
      Except.error (.regexSyntaxError ("Duplicate capture group name")) :=
  rfl

/-- A quantifier-shaped chunk at the start of the pattern (right after
the `^` anchor) has nothing to repeat: SyntaxError. -/
theorem rx_nothing_to_repeat_check :
    createRegexFromPattern ("{2,3}a") =
      Except.error (.regexSyntaxError ("Nothing to repeat")) :=
  rfl

/-- Out-of-order bounds in a surviving braced quantifier: SyntaxError. -/
theorem rx_out_of_order_check :
    createRegexFromPattern ("a{3,2}") =
      Except.error (.regexSyntaxError ("numbers out of order in quantifier")) :=
  rfl

/-! ## Claim theorems: pattern compiler (C1, C8) -/

/-- C1, counterexample to the claim as stated: for the compiled pattern
`profile-{id}`, the matcher accepts `profile-4`, and it STILL accepts
`profile-4x`, obtained by appending an extra trailing character to an
accepted string (the appended `x` is simply absorbed by the `{id}`
placeholder, exactly the boundary case §8 of the spec notes).  This
refutes "appending extra leading or trailing characters makes the
matcher reject"; anchoring only rejects extensions that are not
themselves instantiations. -/
theorem c1_trailing_append_counterexample :
    createRegexFromPattern ("profile-{id}") = Except.ok ⟨profileRSegs, [("id")]⟩ ∧
    reTest profileRSegs (String.toList ("profile-4")) = true ∧
    reTest profileRSegs (String.toList ("profile-4x")) = true :=
  ⟨rfl, rfl, rfl⟩

/-- C1, amended: for every pattern whose compilation succeeds AND whose
constructed regex contains no braced quantifier (`rxPlain` succeeds —
i.e. every brace chunk of the pattern is either a recognized `{name}`
placeholder or non-quantifier-shaped literal text), (1) the matcher
accepts exactly the full-string instantiations — the strings obtained by
replacing each `{name}` placeholder with one or more alphanumeric
characters while all other characters match literally; (2) substituting
any placeholder occurrence with a string containing a non-alphanumeric
character (e.g. a space) makes the matcher reject; and (3) appending or
prepending a non-alphanumeric character to an accepted string makes the
matcher reject (full-string anchoring).  Two restrictions on the
original claim are forced by the code: appending ALPHANUMERIC characters
can produce another accepted instantiation (see the counterexample), and
a pattern with a surviving quantifier-shaped chunk such as `a{2,3}`
compiles into a repetition matcher, not a literal one (see
`rx_quantifier_chunk_check`), so such patterns are excluded. -/
theorem c1_matcher_exact_characterization (p : String) (cp : CompiledPattern)
    (segs : List Seg) (hcomp : createRegexFromPattern p = Except.ok cp)
    (hplain : rxPlain cp.regex = some segs) :
    (∀ s : List Char, reTest cp.regex s = true ↔ Instantiates segs s) ∧
    (∀ (ws : List (List Char)) (s : List Char), substOccs segs ws = some s →
      (∃ w ∈ ws, ∃ c ∈ w, isAlnum c = false) → reTest cp.regex s = false) ∧
    (∀ (s : List Char) (c : Char), reTest cp.regex s = true → isAlnum c = false →
      reTest cp.regex (s ++ [c]) = false ∧ reTest cp.regex (c :: s) = false) := by
  have hb : ∀ s, reTest cp.regex s = matchSegs segs s := reTest_plain cp.regex segs hplain
  refine ⟨?_, ?_, ?_⟩
  · intro s
    rw [hb]
    exact matchSegs_iff segs s
  · intro ws s hsub hbad
    rw [hb]
    exact matchSegs_false_of_bad_subst segs ws s hsub hbad
  · intro s c hm hc
    rw [hb] at hm
    have h2 := matchSegs_false_of_append_bad segs s c hm hc
    rw [hb, hb]
    exact h2

/-- Witness for C1: instantiating the amended theorem at the compiled
pattern `profile-{id}` (quantifier-free) and the substitution
`id := "4 2"` (which contains a space), the matcher rejects
`profile-4 2`. -/
theorem c1_matcher_witness :
    reTest profileRSegs (String.toList ("profile-4 2")) = false := by
  have h := c1_matcher_exact_characterization ("profile-{id}")
    (CompiledPattern.mk profileRSegs [("id")]) profileSegs rfl rfl
  exact h.2.1 [String.toList ("4 2")] (String.toList ("profile-4 2")) rfl (by decide)

/-- C8, counterexample to the claim as stated: the pattern `{a-b}`
contains a brace-delimited placeholder chunk whose parameter name `a-b`
does not match `^\w+$`, yet compilation does not fail with an
`InvalidParameterName` error — the placeholder-recognition regex
`\{(\w+)}` simply does not recognize the chunk, it is not
quantifier-shaped either, so the constructor compiles it as five
literal characters and compilation succeeds. -/
theorem c8_invalid_name_counterexample :
    createRegexFromPattern ("{a-b}") =
      Except.ok ⟨[.ratom (.rlit '{'), .ratom (.rlit 'a'), .ratom (.rlit '-'),
        .ratom (.rlit 'b'), .ratom (.rlit '}')], []⟩ :=
  rfl

/-- C8, amended: pattern compilation never fails with the
`InvalidParameterName` error, on any pattern: it either succeeds or
fails with a SyntaxError from the `new RegExp` constructor (digit-leading
or duplicate group names, misplaced or out-of-order braced quantifiers).
The recognition regex `\{(\w+)}` only ever captures a nonempty `\w+`
name, so the `^\w+$` validity check guarding the
`Invalid parameter name` throw is dead code, and a brace-delimited chunk
with a malformed name is never rejected by it. -/
theorem c8_invalid_parameter_name_unreachable (p : String) :
    (∃ cp, createRegexFromPattern p = Except.ok cp) ∨
    (∃ msg, createRegexFromPattern p =
      Except.error (CompileError.regexSyntaxError msg)) := by
  obtain ⟨toks, htoks⟩ := parseSegsE_ok p.toList
  rcases hrx : rxCompile toks with msg | rsegs
  · right
    refine ⟨msg, ?_⟩
    rw [createRegexFromPattern_eq p toks htoks, hrx]
  · left
    refine ⟨⟨rsegs, toks.filterMap segParamName⟩, ?_⟩
    rw [createRegexFromPattern_eq p toks htoks, hrx]

/-! ## Lemmas: guard chain -/

theorem runGuardLoop_pass_append (pre rest : List SpecdGuard)
    (hpre : ∀ g ∈ pre, g.hasCanActivate = true ∧ g.result = true) :
    runGuardLoop (pre ++ rest) =
      ((runGuardLoop rest).1,
        pre.flatMap (fun g => [.resolved g.gid, .canActivateCalled g.gid]) ++
          (runGuardLoop rest).2) := by
  induction pre with
  | nil => simp [runGuardLoop]
  | cons g pre ih =>
    obtain ⟨h1, h2⟩ := hpre g (List.mem_cons_self g pre)
    rw [List.cons_append, runGuardLoop, if_pos h1, if_pos h2,
      ih (fun x hx => hpre x (List.mem_cons_of_mem g hx))]
    simp

theorem runGuardLoop_blocked (g : SpecdGuard) (post : List SpecdGuard)
    (h1 : g.hasCanActivate = true) (h2 : g.result = false) :
    runGuardLoop (g :: post) = (.blocked, [.resolved g.gid, .canActivateCalled g.gid]) := by
  rw [runGuardLoop, if_pos h1, if_neg (by simp [h2])]

/-! ## Claim theorems: guard chain (C4, C10) -/

/-- C4: in the `UseGuard` wrapper, the first guard whose `canActivate`
returns `false` short-circuits the chain — the emitted trace consists
exactly of the resolve/canActivate events of the passing prefix and of
the failing guard, so no subsequent guard is resolved or invoked, and
the original method never runs; and when every guard passes, the
original method runs after the full chain. -/
theorem c4_guard_chain_short_circuit :
    (∀ (pre post : List SpecdGuard) (g : SpecdGuard),
      (∀ h ∈ pre, h.hasCanActivate = true ∧ h.result = true) →
      g.hasCanActivate = true → g.result = false →
      useGuardWrapped (pre ++ g :: post) .interaction =
        (.blocked,
          pre.flatMap (fun h => [.resolved h.gid, .canActivateCalled h.gid]) ++
            [.resolved g.gid, .canActivateCalled g.gid]) ∧
      GuardEvent.originalRan ∉ (useGuardWrapped (pre ++ g :: post) .interaction).2) ∧
    (∀ gs : List SpecdGuard,
      (∀ h ∈ gs, h.hasCanActivate = true ∧ h.result = true) →
      useGuardWrapped gs .interaction =
        (.ran,
          gs.flatMap (fun h => [.resolved h.gid, .canActivateCalled h.gid]) ++
            [.originalRan])) := by
  constructor
  · intro pre post g hpre hcan hfalse
    have htr : useGuardWrapped (pre ++ g :: post) .interaction =
        (.blocked,
          pre.flatMap (fun h => [.resolved h.gid, .canActivateCalled h.gid]) ++
            [.resolved g.gid, .canActivateCalled g.gid]) := by
      rw [useGuardWrapped, if_pos rfl, runGuardLoop_pass_append pre (g :: post) hpre,
        runGuardLoop_blocked g post hcan hfalse]
    refine ⟨htr, ?_⟩
    rw [htr]
    intro hmem
    rcases List.mem_append.mp hmem with hm | hm
    · obtain ⟨x, -, hm2⟩ := List.mem_flatMap.mp hm
      simp at hm2
    · simp at hm
  · intro gs hall
    rw [useGuardWrapped, if_pos rfl]
    have h0 : runGuardLoop ([] : List SpecdGuard) = (.ran, [.originalRan]) := rfl
    have := runGuardLoop_pass_append gs [] hall
    rw [List.append_nil] at this
    rw [this, h0]

/-- Witness for C4: with a passing guard `1` before a failing guard `2`
and a guard `3` after it, the wrapper blocks after exactly the four
events of guards `1` and `2`: guard `3` is never resolved and the
original method never runs. -/
theorem c4_guard_chain_witness :
    useGuardWrapped [⟨1, true, true⟩, ⟨2, true, false⟩, ⟨3, true, true⟩] .interaction =
      (.blocked, [.resolved 1, .canActivateCalled 1, .resolved 2, .canActivateCalled 2]) := by
  have h := (c4_guard_chain_short_circuit.1 [⟨1, true, true⟩] [⟨3, true, true⟩]
    ⟨2, true, false⟩ (by decide) rfl rfl).1
  exact h

/-- C10: both wrappers reject a first argument of the wrong runtime
class before doing anything else: the `UseGuard` wrapper throws with an
empty trace (no guard resolved, no `canActivate` called, original method
not run) whenever the first argument is not a `BaseInteraction`, and the
`Command` wrapper throws without running the original method whenever
the first argument is neither a `BaseInteraction` nor a `Message`. -/
theorem c10_wrapper_first_arg_check :
    (∀ (gs : List SpecdGuard) (arg : FirstArg), arg ≠ .interaction →
      useGuardWrapped gs arg = (.threw, [])) ∧
    (∀ arg : FirstArg, arg ≠ .interaction → arg ≠ .message →
      commandWrapped arg = (.threw, [])) := by
  constructor
  · intro gs arg harg
    rw [useGuardWrapped, if_neg harg]
  · intro arg h1 h2
    rw [commandWrapped, if_neg (by simp [h1, h2])]

/-- Witness for C10: a `Message` first argument makes the `UseGuard`
wrapper throw with an empty trace even with a passing guard attached,
and a plain-object first argument makes the `Command` wrapper throw. -/
theorem c10_wrapper_first_arg_witness :
    useGuardWrapped [⟨1, true, true⟩] .message = (.threw, []) ∧
    commandWrapped .other = (.threw, []) :=
  ⟨c10_wrapper_first_arg_check.1 [⟨1, true, true⟩] .message (by decide),
   c10_wrapper_first_arg_check.2 .other (by decide) (by decide)⟩

/-! ## Claim theorems: registration and shutdown (C7, C9) -/

/-- C7: the single bulk `commands.set` call of `registerCommands`
submits exactly the builders of the builder-carrying metadata entries:
a builder is in the submitted list iff some controller's command map has
an entry one of whose metadata elements carries it (the guard
`type in CommandType` never filters anything, because the string enum's
keys coincide with its values). -/
theorem c7_register_submits_every_builder (cs : List IController) (b : Nat) :
    (b ∈ collectBuilders cs ↔
      ∃ c ∈ cs, ∃ e ∈ c.commandMap, ∃ m ∈ e.2, m.builder = some b) ∧
    registerCommands cs = [RegEvent.setCommands (collectBuilders cs)] := by
  refine ⟨?_, rfl⟩
  have htype : ∀ t : CommandType, typeInCommandType t = true := by
    intro t
    cases t <;> rfl
  simp [collectBuilders, List.mem_flatMap, List.mem_filterMap, htype]

/-- C9: graceful shutdown is idempotent and unconditional — starting
from a running state, one invocation (whether or not the close sequence
throws) sets the latch, calls `destroy` exactly once and exits with
success code 0; any further invocation is a no-op: it emits no events,
does not close the connection a second time and leaves the state
unchanged. -/
theorem c9_shutdown_idempotent_unconditional (s : AppState) (d d2 : Bool)
    (hbot : s.hasBot = true) (hrun : s.isShuttingDown = false) :
    (gracefulShutdown s d).1.isShuttingDown = true ∧
    (gracefulShutdown s d).1.destroyCalls = s.destroyCalls + 1 ∧
    ShutEvent.exited 0 ∈ (gracefulShutdown s d).2 ∧
    gracefulShutdown (gracefulShutdown s d).1 d2 = ((gracefulShutdown s d).1, []) := by
  have hcond : (s.hasBot && !s.isShuttingDown) = true := by simp [hbot, hrun]
  cases d <;>
    simp [gracefulShutdown, hcond, hbot, hrun]

/-- Witness for C9: from the freshly started state, a first shutdown
whose close sequence throws still exits 0, and a second invocation is a
no-op. -/
theorem c9_shutdown_witness :
    ShutEvent.exited 0 ∈ (gracefulShutdown ⟨true, false, 0⟩ true).2 ∧
    gracefulShutdown (gracefulShutdown ⟨true, false, 0⟩ true).1 true =
      ((gracefulShutdown ⟨true, false, 0⟩ true).1, []) := by
  have h := c9_shutdown_idempotent_unconditional ⟨true, false, 0⟩ true true rfl rfl
  exact ⟨h.2.2.1, h.2.2.2⟩

/-! ## Lemmas: message dispatch -/

theorem msgInvocations_append (l1 l2 : List MEvent) :
    msgInvocations (l1 ++ l2) = msgInvocations l1 ++ msgInvocations l2 := by
  simp [msgInvocations, List.filterMap_append]

theorem runMsgHandlers_invocations (env : Nat → String → Bool) (content : String)
    (c : MsgController) :
    msgInvocations (runMsgHandlers env content c) =
      ((sortHandlers c.handlers).filter (msgMatches content)).map
        (fun h => (c.cid, h.method)) := by
  rw [runMsgHandlers]
  generalize sortHandlers c.handlers = hs
  induction hs with
  | nil => rfl
  | cons h hs ih =>
    rw [List.flatMap_cons, msgInvocations_append, ih, List.filter_cons]
    by_cases hm : msgMatches content h
    · rcases he : env c.cid h.method with - | -
      all_goals simp [hm, he, msgInvocations]
    · simp [hm, msgInvocations]

theorem sortHandlers_filter_matches (content : String) (hs : List MsgHandler) :
    (sortHandlers hs).filter (msgMatches content) =
      hs.filter (fun h => kwTruthy h.keyword && msgMatches content h) ++
        hs.filter (fun h => !kwTruthy h.keyword && msgMatches content h) := by
  rw [sortHandlers, List.filter_append, List.filter_filter, List.filter_filter]
  congr 1
  · exact List.filter_congr (fun a ha => by rw [Bool.and_comm])
  · exact List.filter_congr (fun a ha => by rw [Bool.and_comm])

theorem runMsgHandlers_expected (env : Nat → String → Bool) (content : String)
    (c : MsgController) :
    msgInvocations (runMsgHandlers env content c) = expectedInvocations content c := by
  rw [runMsgHandlers_invocations, sortHandlers_filter_matches, expectedInvocations,
    List.map_append]

theorem expectedInvocations_cid (content : String) (c : MsgController) :
    ∀ e ∈ expectedInvocations content c, e.1 = c.cid := by
  intro e he
  rcases List.mem_append.mp he with h | h
  all_goals obtain ⟨x, -, rfl⟩ := List.mem_map.mp h
  all_goals rfl

theorem expectedInvocations_irrelevant (content : String) (c : MsgController)
    (h : relevantMsg content c = false) : expectedInvocations content c = [] := by
  have hall : ∀ x ∈ c.handlers, msgMatches content x = false := by
    intro x hx
    rcases hm : msgMatches content x with - | -
    · rfl
    · exfalso
      rw [relevantMsg] at h
      rw [List.any_eq_false] at h
      exact absurd hm (by simpa using h x hx)
  rw [expectedInvocations]
  rw [List.filter_eq_nil_iff.mpr (fun x hx => by simp [hall x hx]),
    List.filter_eq_nil_iff.mpr (fun x hx => by simp [hall x hx])]
  rfl

theorem handleMessage_invocations (cs : List MsgController) (m : InMessage)
    (env : Nat → String → Bool) (hbot : m.authorBot = false)
    (hcont : ((jsTrim m.content) == "") = false) :
    msgInvocations (handleMessage cs m env) =
      (cs.filter (relevantMsg (jsTrim m.content))).flatMap
        (fun c => expectedInvocations (jsTrim m.content) c) := by
  rw [handleMessage, if_neg (by simp [hbot, hcont])]
  generalize cs.filter (relevantMsg (jsTrim m.content)) = ds
  induction ds with
  | nil => rfl
  | cons d ds ih =>
    rw [List.flatMap_cons, List.flatMap_cons, msgInvocations_append, ih,
      runMsgHandlers_expected]

theorem flatMap_expected_filter_ne (content : String) (cid0 : Nat)
    (ds : List MsgController) (hne : ∀ c ∈ ds, c.cid ≠ cid0) :
    (ds.flatMap (fun c => expectedInvocations content c)).filter
      (fun e => e.1 == cid0) = [] := by
  rw [List.filter_eq_nil_iff]
  intro e he
  obtain ⟨c, hc, he2⟩ := List.mem_flatMap.mp he
  have := expectedInvocations_cid content c e he2
  simp [this, hne c hc]

theorem expected_filter_self (content : String) (c : MsgController) :
    (expectedInvocations content c).filter (fun e => e.1 == c.cid) =
      expectedInvocations content c := by
  rw [List.filter_eq_self]
  intro e he
  simp [expectedInvocations_cid content c e he]

theorem filtered_flatMap_per_controller (content : String) :
    ∀ (cs : List MsgController), (cs.map (fun c => c.cid)).Nodup →
      ∀ c ∈ cs,
        ((cs.filter (relevantMsg content)).flatMap
            (fun c2 => expectedInvocations content c2)).filter
          (fun e => e.1 == c.cid) = expectedInvocations content c := by
  intro cs
  induction cs with
  | nil =>
    intro hn c hc
    exact absurd hc (List.not_mem_nil c)
  | cons d ds ih =>
    intro hnod c hc
    rw [List.map_cons, List.nodup_cons] at hnod
    obtain ⟨hdnot, hnod2⟩ := hnod
    have hrest_ne : ∀ c2 ∈ ds.filter (relevantMsg content), c2.cid ≠ d.cid := by
      intro c2 hc2 heq
      exact hdnot (heq ▸ List.mem_map_of_mem (fun x => x.cid) (List.mem_of_mem_filter hc2))
    rcases List.mem_cons.mp hc with rfl | hc2
    · rw [List.filter_cons]
      by_cases hrel : relevantMsg content c = true
      · rw [if_pos (by simp [hrel]), List.flatMap_cons, List.filter_append,
          expected_filter_self,
          flatMap_expected_filter_ne content c.cid (ds.filter (relevantMsg content)) hrest_ne,
          List.append_nil]
      · rw [if_neg (by simpa using hrel),
          flatMap_expected_filter_ne content c.cid (ds.filter (relevantMsg content)) hrest_ne,
          expectedInvocations_irrelevant content c (by simpa using hrel)]
    · have hne_d : d.cid ≠ c.cid := by
        intro heq
        exact hdnot (heq ▸ List.mem_map_of_mem (fun x => x.cid) hc2)
      rw [List.filter_cons]
      by_cases hrel : relevantMsg content d = true
      · rw [if_pos (by simp [hrel]), List.flatMap_cons, List.filter_append,
          List.filter_eq_nil_iff.mpr (fun e he => by
            simp [expectedInvocations_cid content d e he, hne_d]),
          List.nil_append]
        exact ih hnod2 c hc2
      · rw [if_neg (by simpa using hrel)]
        exact ih hnod2 c hc2

/-! ## Lemmas: interaction dispatch -/

theorem handleInteraction_cons_none (c : IController) (cs : List IController)
    (i : DInteraction) (env : Nat → String → Bool) (h : selectMeta c i = none) :
    handleInteraction (c :: cs) i env = handleInteraction cs i env := by
  rw [handleInteraction, h]

theorem handleInteraction_skip (pre cs : List IController) (i : DInteraction)
    (env : Nat → String → Bool) (hpre : ∀ c ∈ pre, selectMeta c i = none) :
    handleInteraction (pre ++ cs) i env = handleInteraction cs i env := by
  induction pre with
  | nil => rfl
  | cons d pre ih =>
    rw [List.cons_append,
      handleInteraction_cons_none d (pre ++ cs) i env (hpre d (List.mem_cons_self d pre))]
    exact ih (fun c hc => hpre c (List.mem_cons_of_mem d hc))

theorem handleInteraction_cons_some (c : IController) (cs : List IController)
    (i : DInteraction) (env : Nat → String → Bool) (ident : String) (m : CommandMeta)
    (h : selectMeta c i = some (ident, m)) :
    handleInteraction (c :: cs) i env =
      if typeMatches m.type i then
        if env c.cid m.methodName then
          [.invoked c.cid m.methodName, .errorLogged ident] ++
            (if i.isRepliable then [.repliedError] else [])
        else [.invoked c.cid m.methodName]
      else [.warnedMismatch ident] := by
  rw [handleInteraction, h]

theorem selectMeta_chatInput (c : IController) (name : String) (m : CommandMeta)
    (ms : List CommandMeta) (h : lookupCmd c.commandMap name = some (m :: ms)) :
    selectMeta c (.chatInput name) = some (name, m) := by
  rw [selectMeta, h]

/-! ## Claim theorems: interaction dispatch (C2, C3, C6) and message dispatch (C5) -/

/-- C2, counterexample to the claim as stated: the first controller's
only `ping` entry is BUTTON-typed while the inbound event is a
chat-input command, and the second controller holds a SLASH-typed
`ping` entry that would match; yet the whole dispatch trace is just the
mismatch warning — the second controller is never scanned and its
handler `m2` is never invoked, so dispatch does NOT continue scanning
after the warning. -/
theorem c2_mismatch_abort_counterexample :
    handleInteraction [mismatchFirstController, slashSecondController]
      (.chatInput ("ping")) (fun _ _ => false) = [.warnedMismatch ("ping")] ∧
    DEvent.invoked 1 ("m2") ∉
      handleInteraction [mismatchFirstController, slashSecondController]
        (.chatInput ("ping")) (fun _ _ => false) :=
  ⟨rfl, by decide⟩

/-- C2, amended: when the first controller yielding a metadata entry
declares a category that does not correspond to the event's platform
subtype, the dispatcher logs a warning and then STOPS: the trace is
exactly the warning — no further controller is scanned, no handler is
invoked, and no fallback reply is sent (the `return` after the
`try`/`catch` aborts the dispatch of that event). -/
theorem c2_mismatch_warn_stops_dispatch (pre : List IController) (c : IController)
    (rest : List IController) (i : DInteraction) (env : Nat → String → Bool)
    (ident : String) (m : CommandMeta)
    (hpre : ∀ c2 ∈ pre, selectMeta c2 i = none)
    (hsel : selectMeta c i = some (ident, m))
    (hmis : typeMatches m.type i = false) :
    handleInteraction (pre ++ c :: rest) i env = [.warnedMismatch ident] := by
  rw [handleInteraction_skip pre (c :: rest) i env hpre,
    handleInteraction_cons_some c rest i env ident m hsel, if_neg (by simp [hmis])]

/-- Witness for C2: the amended theorem applied to the two-controller
counterexample configuration. -/
theorem c2_mismatch_warn_witness :
    handleInteraction [mismatchFirstController, slashSecondController]
      (.chatInput ("ping")) (fun _ _ => true) = [.warnedMismatch ("ping")] :=
  c2_mismatch_warn_stops_dispatch [] mismatchFirstController [slashSecondController]
    (.chatInput ("ping")) (fun _ _ => true) ("ping") pingButtonMeta
    (fun c2 hc => absurd hc (List.not_mem_nil c2)) rfl rfl

/-- C3, counterexample to the claim as stated: one controller holds two
entries under the identifier `ping` — a BUTTON-typed one first and a
SLASH-typed one second.  For an inbound chat-input `ping`, the claim
says dispatch selects the first entry whose category matches (the SLASH
entry, invoking `m2`); actually dispatch takes the head entry regardless
of category, logs a mismatch warning, and `m2` is never invoked. -/
theorem c3_first_entry_counterexample :
    handleInteraction [twoEntryController] (.chatInput ("ping")) (fun _ _ => false) =
      [.warnedMismatch ("ping")] ∧
    DEvent.invoked 0 ("m2") ∉
      handleInteraction [twoEntryController] (.chatInput ("ping")) (fun _ _ => false) :=
  ⟨rfl, by decide⟩

/-- Lookup success exposes a member of the command map. -/
theorem lookupCmd_mem (map : List (String × List CommandMeta)) (k : String)
    (arr : List CommandMeta) (h : lookupCmd map k = some arr) :
    ∃ name, (name, arr) ∈ map := by
  rw [lookupCmd] at h
  rcases hf : map.find? (fun e => e.1 == k) with - | e
  · rw [hf] at h
    exact Option.noConfusion h
  · rw [hf] at h
    simp only [Option.map_some'] at h
    injection h with h
    refine ⟨e.1, ?_⟩
    rw [← h]
    exact List.mem_of_find?_eq_some hf

/-- Whatever event subtype selected a metadata entry, the entry is the
head of its identifier's array in the controller's command map. -/
theorem selectMeta_head (c : IController) (i : DInteraction) (ident : String)
    (m : CommandMeta) (h : selectMeta c i = some (ident, m)) :
    ∃ name arr, (name, arr) ∈ c.commandMap ∧ arr.head? = some m := by
  cases i with
  | chatInput nm =>
    rcases hl : lookupCmd c.commandMap nm with - | arr
    · rw [selectMeta, hl] at h
      exact Option.noConfusion h
    · cases arr with
      | nil =>
        rw [selectMeta, hl] at h
        exact Option.noConfusion h
      | cons m2 ms =>
        rw [selectMeta, hl] at h
        injection h with h2
        injection h2 with h3 h4
        obtain ⟨name, hmem⟩ := lookupCmd_mem c.commandMap nm (m2 :: ms) hl
        exact ⟨name, m2 :: ms, hmem, by rw [List.head?_cons, h4]⟩
  | userContextMenu nm =>
    rcases hl : lookupCmd c.commandMap nm with - | arr
    · rw [selectMeta, hl] at h
      exact Option.noConfusion h
    · cases arr with
      | nil =>
        rw [selectMeta, hl] at h
        exact Option.noConfusion h
      | cons m2 ms =>
        rw [selectMeta, hl] at h
        injection h with h2
        injection h2 with h3 h4
        obtain ⟨name, hmem⟩ := lookupCmd_mem c.commandMap nm (m2 :: ms) hl
        exact ⟨name, m2 :: ms, hmem, by rw [List.head?_cons, h4]⟩
  | messageContextMenu nm =>
    rcases hl : lookupCmd c.commandMap nm with - | arr
    · rw [selectMeta, hl] at h
      exact Option.noConfusion h
    · cases arr with
      | nil =>
        rw [selectMeta, hl] at h
        exact Option.noConfusion h
      | cons m2 ms =>
        rw [selectMeta, hl] at h
        injection h with h2
        injection h2 with h3 h4
        obtain ⟨name, hmem⟩ := lookupCmd_mem c.commandMap nm (m2 :: ms) hl
        exact ⟨name, m2 :: ms, hmem, by rw [List.head?_cons, h4]⟩
  | button cid =>
    rcases hf : findCommandEntry c.commandMap cid with - | e
    · rw [selectMeta, hf] at h
      exact Option.noConfusion h
    · obtain ⟨nm, arr⟩ := e
      cases arr with
      | nil =>
        rw [selectMeta, hf] at h
        exact Option.noConfusion h
      | cons m2 ms =>
        rw [selectMeta, hf] at h
        injection h with h2
        injection h2 with h3 h4
        rw [findCommandEntry] at hf
        exact ⟨nm, m2 :: ms, List.mem_of_find?_eq_some hf, by rw [List.head?_cons, h4]⟩
  | stringSelect cid =>
    rcases hf : findCommandEntry c.commandMap cid with - | e
    · rw [selectMeta, hf] at h
      exact Option.noConfusion h
    · obtain ⟨nm, arr⟩ := e
      cases arr with
      | nil =>
        rw [selectMeta, hf] at h
        exact Option.noConfusion h
      | cons m2 ms =>
        rw [selectMeta, hf] at h
        injection h with h2
        injection h2 with h3 h4
        rw [findCommandEntry] at hf
        exact ⟨nm, m2 :: ms, List.mem_of_find?_eq_some hf, by rw [List.head?_cons, h4]⟩
  | modalSubmit cid =>
    rcases hf : findCommandEntry c.commandMap cid with - | e
    · rw [selectMeta, hf] at h
      exact Option.noConfusion h
    · obtain ⟨nm, arr⟩ := e
      cases arr with
      | nil =>
        rw [selectMeta, hf] at h
        exact Option.noConfusion h
      | cons m2 ms =>
        rw [selectMeta, hf] at h
        injection h with h2
        injection h2 with h3 h4
        rw [findCommandEntry] at hf
        exact ⟨nm, m2 :: ms, List.mem_of_find?_eq_some hf, by rw [List.head?_cons, h4]⟩
  | nonRepliable =>
    rw [selectMeta] at h
    exact Option.noConfusion h

/-- C3, amended: when a command identifier holds several metadata
entries, dispatch always acts on the FIRST entry of the array regardless
of its category, for every inbound event subtype: (1) whichever subtype
selected a metadata entry, the selected entry is the head of its
identifier's array; (2) for component events (button, select menu,
modal) the identifier's entry is found by testing every entry's
compiled pattern — so the remaining entries are consulted only to
select the identifier — and the dispatched metadata is still the
array's head; (3) the whole dispatch outcome is determined by the head
entry alone: invocation when its category matches the event, a mismatch
warning otherwise, the remaining entries never being dispatched. -/
theorem c3_dispatch_uses_head_entry :
    (∀ (c : IController) (i : DInteraction) (ident : String) (m : CommandMeta),
      selectMeta c i = some (ident, m) →
      ∃ name arr, (name, arr) ∈ c.commandMap ∧ arr.head? = some m) ∧
    (∀ (c : IController) (customId nm : String) (m : CommandMeta)
      (ms : List CommandMeta),
      findCommandEntry c.commandMap customId = some (nm, m :: ms) →
      selectMeta c (.button customId) = some (customId, m) ∧
      selectMeta c (.stringSelect customId) = some (customId, m) ∧
      selectMeta c (.modalSubmit customId) = some (customId, m)) ∧
    (∀ (pre : List IController) (c : IController) (rest : List IController)
      (i : DInteraction) (env : Nat → String → Bool) (ident : String)
      (m : CommandMeta),
      (∀ c2 ∈ pre, selectMeta c2 i = none) →
      selectMeta c i = some (ident, m) →
      handleInteraction (pre ++ c :: rest) i env =
        if typeMatches m.type i then
          if env c.cid m.methodName then
            [.invoked c.cid m.methodName, .errorLogged ident] ++
              (if i.isRepliable then [.repliedError] else [])
          else [.invoked c.cid m.methodName]
        else [.warnedMismatch ident]) := by
  refine ⟨selectMeta_head, ?_, ?_⟩
  · intro c customId nm m ms hfind
    refine ⟨?_, ?_, ?_⟩
    all_goals rw [selectMeta, hfind]
  · intro pre c rest i env ident m hpre hsel
    rw [handleInteraction_skip pre (c :: rest) i env hpre,
      handleInteraction_cons_some c rest i env ident m hsel]

/-- Witness for C3: a controller holding, under the single identifier
`profile-{id}`, a SLASH-typed head entry and a BUTTON-typed second
entry whose pattern is the only one matching the custom identifier
`profile-42`.  The entry is selected thanks to the SECOND entry's
pattern, yet the dispatched metadata is the head (the SLASH entry), and
the button dispatch therefore ends in a mismatch warning — the matching
second entry is never dispatched. -/
theorem c3_dispatch_uses_head_entry_witness :
    selectMeta headSlashController (.button ("profile-42")) =
      some (("profile-42"), pingSlashMeta) ∧
    handleInteraction [headSlashController] (.button ("profile-42"))
      (fun _ _ => false) = [.warnedMismatch ("profile-42")] ∧
    (∃ name arr, (name, arr) ∈ headSlashController.commandMap ∧
      arr.head? = some pingSlashMeta) := by
  refine ⟨?_, ?_, ?_⟩
  · exact (c3_dispatch_uses_head_entry.2.1 headSlashController ("profile-42")
      ("profile-{id}") pingSlashMeta [profileButtonMeta] rfl).1
  · exact (c3_dispatch_uses_head_entry.2.2 [] headSlashController []
      (.button ("profile-42")) (fun _ _ => false) ("profile-42") pingSlashMeta
      (fun c2 hc => absurd hc (List.not_mem_nil c2)) rfl).trans (by decide)
  · exact c3_dispatch_uses_head_entry.1 headSlashController (.button ("profile-42"))
      ("profile-42") pingSlashMeta rfl

/-- C5: message dispatch (1) ignores bot-authored and whitespace-only
messages; (2) for every other message and every controller (with
distinct controller identities), the invocations attributed to that
controller are exactly its matching entries — every entry whose keyword
is absent or equals the trimmed content, keyword-filtered entries before
the unfiltered catch-all, and nothing if no entry matches; and (3) in
particular two controllers each holding one `ping`-filtered entry and
one catch-all produce exactly 4 invocations for the message `ping`, in
filtered-before-unfiltered order per controller. -/
theorem c5_message_dispatch (cs : List MsgController) (m : InMessage)
    (env : Nat → String → Bool) :
    (m.authorBot = true ∨ (jsTrim m.content) = "" → handleMessage cs m env = []) ∧
    (m.authorBot = false → (jsTrim m.content) ≠ "" → (cs.map (fun c => c.cid)).Nodup →
      ∀ c ∈ cs,
        (msgInvocations (handleMessage cs m env)).filter (fun e => e.1 == c.cid) =
          expectedInvocations (jsTrim m.content) c) ∧
    msgInvocations (handleMessage twoPingControllers pingMessage (fun _ _ => false)) =
      [(0, ("m1")), (0, ("m2")), (1, ("m1")), (1, ("m2"))] := by
  refine ⟨?_, ?_, by decide⟩
  · intro h
    rcases h with h | h
    · rw [handleMessage, if_pos (by simp [h])]
    · rw [handleMessage, if_pos (by simp [h])]
  · intro hbot hcont hnod c hc
    rw [handleMessage_invocations cs m env hbot (by simpa using hcont)]
    exact filtered_flatMap_per_controller (jsTrim m.content) cs hnod c hc

/-- Witness for C5: the per-controller characterization applied to the
two-controller `ping` configuration (controller 0), and the bot-author
guard applied to a bot-authored message. -/
theorem c5_message_dispatch_witness :
    (msgInvocations (handleMessage twoPingControllers pingMessage
        (fun _ _ => false))).filter (fun e => e.1 == (0 : Nat)) =
      [(0, ("m1")), (0, ("m2"))] ∧
    handleMessage twoPingControllers ⟨true, ("ping")⟩ (fun _ _ => false) = [] := by
  constructor
  · exact ((c5_message_dispatch twoPingControllers pingMessage (fun _ _ => false)).2.1
      rfl (by decide) (by decide)
      ⟨0, [⟨some ("ping"), ("m1")⟩, ⟨none, ("m2")⟩]⟩ (by decide)).trans (by decide)
  · exact (c5_message_dispatch twoPingControllers ⟨true, ("ping")⟩
      (fun _ _ => false)).1 (Or.inl rfl)

/-- C6: handler exceptions are contained at the dispatch boundary.  For
interactions: when the selected handler throws, the trace is exactly the
invocation, the error log carrying the command identifier, and — exactly
when the interaction is repliable — the generic error reply; nothing is
re-thrown (the dispatch returns a normal trace).  For messages: which
handlers get invoked is independent of which handlers throw, so one
handler's throw never prevents the remaining matching handlers from
running for the same message. -/
theorem c6_handler_error_contained :
    (∀ (pre : List IController) (c : IController) (rest : List IController)
      (i : DInteraction) (env : Nat → String → Bool) (ident : String) (m : CommandMeta),
      (∀ c2 ∈ pre, selectMeta c2 i = none) →
      selectMeta c i = some (ident, m) →
      typeMatches m.type i = true →
      env c.cid m.methodName = true →
      handleInteraction (pre ++ c :: rest) i env =
        [.invoked c.cid m.methodName, .errorLogged ident] ++
          (if i.isRepliable then [.repliedError] else [])) ∧
    (∀ (cs : List MsgController) (m : InMessage) (env env2 : Nat → String → Bool),
      msgInvocations (handleMessage cs m env) =
        msgInvocations (handleMessage cs m env2)) := by
  constructor
  · intro pre c rest i env ident m hpre hsel hmatch herr
    rw [handleInteraction_skip pre (c :: rest) i env hpre,
      handleInteraction_cons_some c rest i env ident m hsel, if_pos hmatch, if_pos herr]
  · intro cs m env env2
    rcases h : (m.authorBot || ((jsTrim m.content) == "")) with - | -
    · obtain ⟨h1, h2⟩ := Bool.or_eq_false_iff.mp h
      rw [handleMessage_invocations cs m env h1 h2,
        handleMessage_invocations cs m env2 h1 h2]
    · rw [handleMessage, if_pos h, handleMessage, if_pos h]

/-- Witness for C6: a throwing SLASH handler produces exactly the
invocation, the error log with identifier `ping` and the error reply;
and for messages, an all-throwing environment yields the same
invocation list as a never-throwing one. -/
theorem c6_handler_error_contained_witness :
    handleInteraction [slashSecondController] (.chatInput ("ping")) (fun _ _ => true) =
      [.invoked 1 ("m2"), .errorLogged ("ping"), .repliedError] ∧
    msgInvocations (handleMessage twoPingControllers pingMessage (fun _ _ => true)) =
      msgInvocations (handleMessage twoPingControllers pingMessage (fun _ _ => false)) := by
  constructor
  · exact (c6_handler_error_contained.1 [] slashSecondController [] (.chatInput ("ping"))
      (fun _ _ => true) ("ping") pingSlashMeta
      (fun c2 hc => absurd hc (List.not_mem_nil c2)) rfl rfl rfl).trans (by decide)
  · exact c6_handler_error_contained.2 twoPingControllers pingMessage
      (fun _ _ => true) (fun _ _ => false)
